import Mathlib

/-!
Verification of the nvme_models storage/cache subsystem.

Strings from the Python source are modelled as `List Char`; Python floats
(sizes in GB, timestamps, latencies) are modelled as exact rationals `ℚ`
(every concrete constant used in a theorem below is exactly representable
as a binary double, so the comparisons proved here coincide with the
float comparisons the source performs on those inputs); Python dicts
(`OrderedDict`, plain dicts) are modelled as association lists in
insertion order, matching Python's guaranteed iteration order.
-/

namespace NvmeModels

/-- Apostrophe character, kept out of string literals. -/
def apos : Char := Char.ofNat 39

/-- Backtick character, kept out of string literals. -/
def btick : Char := Char.ofNat 96

/-- Opening curly brace character. -/
def lbrace : Char := Char.ofNat 123

/-- Closing curly brace character. -/
def rbrace : Char := Char.ofNat 125

/-- NUL character. -/
def nulChar : Char := Char.ofNat 0

/-- Decidable list-prefix test on characters. -/
def isPrefixOfL : List Char → List Char → Bool
  | [], _ => true
  | _ :: _, [] => false
  | a :: as, b :: bs => a = b && isPrefixOfL as bs

/-- Substring containment on `List Char`, the model of Python's
`pat in s` for strings. -/
def containsSub (pat : List Char) : List Char → Bool
  | [] => pat.isEmpty
  | a :: t => isPrefixOfL pat (a :: t) || containsSub pat t

/-- Model of Python `str.startswith` for a literal prefix. -/
def startsWithL (pat s : List Char) : Bool := isPrefixOfL pat s

/-- Model of Python `str.lower()` restricted to ASCII case mapping;
every pattern the source lowercases against is pure ASCII. -/
def toLowerL (s : List Char) : List Char := s.map Char.toLower

/-- `SecurityValidator.validate_path_traversal` (validators.py:315-343).
Rejects `../` and `..\` substrings, a leading `/`, a drive-letter
pattern (second char `:` with alphabetic first char), and a leading
`\\` UNC prefix.  The source's `path[0].isalpha()` consults Python's
Unicode character database — external data — so the embedding takes the
per-character answer as the oracle parameter `pyAlpha`; on ASCII
characters Python's `isalpha` coincides with `Char.isAlpha`
(`[A-Za-z]`), and on non-ASCII letters such as `é` it answers true. -/
def validate_path_traversal (pyAlpha : Char → Bool) (path : List Char) : Bool :=
  if containsSub ('.' :: '.' :: '/' :: []) path
      || containsSub ('.' :: '.' :: '\\' :: []) path then false
  else if startsWithL ['/'] path then false
  else if 2 ≤ path.length && path.getD 1 ' ' = ':' && pyAlpha (path.getD 0 ' ') then false
  else if startsWithL ['\\', '\\'] path then false
  else true

/-- Characters allowed in the organization part of the HuggingFace
model-id grammar `[a-zA-Z0-9_-]`. -/
def isOrgChar (c : Char) : Bool := c.isAlpha || c.isDigit || c = '_' || c = '-'

/-- Characters allowed in the name part of the HuggingFace grammar and
in the Ollama tag: `[a-zA-Z0-9._-]`. -/
def isNameChar (c : Char) : Bool := isOrgChar c || c = '.'

/-- Model of `re.match` against `^[a-zA-Z0-9_-]+/[a-zA-Z0-9._-]+$`
(validators.py:449): since neither class contains `/`, a match is a
split at the first `/` with both parts nonempty and class-constrained. -/
def matchHF (l : List Char) : Bool :=
  let org := l.takeWhile (fun c => !(c = '/'))
  match l.dropWhile (fun c => !(c = '/')) with
  | '/' :: name =>
      !org.isEmpty && org.all isOrgChar && !name.isEmpty && name.all isNameChar
  | _ => false

/-- Model of `re.match` against `^[a-zA-Z0-9_-]+(:[a-zA-Z0-9._-]+)?$`
(validators.py:456). -/
def matchOllama (l : List Char) : Bool :=
  let base := l.takeWhile (fun c => !(c = ':'))
  match l.dropWhile (fun c => !(c = ':')) with
  | [] => !base.isEmpty && base.all isOrgChar
  | ':' :: tag =>
      !base.isEmpty && base.all isOrgChar && !tag.isEmpty && tag.all isNameChar
  | _ => false

/-- The dangerous-character list of `validate_model_id`
(validators.py:433). -/
def dangerousChars : List Char :=
  [';', '|', '&', '$', btick, '(', ')', lbrace, rbrace, '<', '>', '\n', '\r', nulChar]

/-- The source scans `dangerous_chars` in order and reports the first
one contained in the id. -/
def findDanger (mid : List Char) : Option Char :=
  dangerousChars.find? (fun c => mid.contains c)

/-- `SecurityValidator.validate_model_id` (validators.py:409-466),
returning the `(is_valid, error_message)` pair; messages reproduce the
source's f-strings. -/
def validate_model_id (mid provider : List Char) : Bool × List Char :=
  if mid.isEmpty then
    (false, "Model ID cannot be empty".toList)
  else if 256 < mid.length then
    (false, "Model ID exceeds maximum length of 256 characters: ".toList
              ++ (Nat.repr mid.length).toList)
  else
    match findDanger mid with
    | some c =>
        (false, "Model ID contains dangerous character ".toList
                  ++ [apos, c, apos]
                  ++ ": potential command injection attempt".toList)
    | none =>
      if containsSub ('.' :: '.' :: []) mid || startsWithL ['/'] mid
          || startsWithL ['\\'] mid then
        (false, "Model ID contains path traversal pattern: ".toList ++ mid)
      else if toLowerL provider = "huggingface".toList then
        if matchHF mid then (true, [])
        else
          (false, "Invalid HuggingFace model ID format: ".toList ++ mid
                    ++ ". Expected pattern: ".toList
                    ++ [apos] ++ "organization/model-name".toList ++ [apos])
      else if toLowerL provider = "ollama".toList then
        if matchOllama mid then (true, [])
        else
          (false, "Invalid Ollama model ID format: ".toList ++ mid
                    ++ ". Expected pattern: ".toList
                    ++ [apos] ++ "model-name".toList ++ [apos]
                    ++ " or ".toList
                    ++ [apos] ++ "model-name:tag".toList ++ [apos])
      else
        (false, "Unknown provider: ".toList ++ provider
                  ++ ". Supported providers: ".toList
                  ++ [apos] ++ "huggingface".toList ++ [apos] ++ ", ".toList
                  ++ [apos] ++ "ollama".toList ++ [apos])

/-- Python `str.strip(chars)` / `lstrip` / `rstrip`: drop characters of
the set from the left. -/
def lstripSet (p : Char → Bool) (l : List Char) : List Char := l.dropWhile p

/-- Drop characters of the set from the right (Python `rstrip`): a
character is removed exactly when it satisfies `p` and everything after
it is removed too. -/
def rstripSet (p : Char → Bool) : List Char → List Char
  | [] => []
  | c :: t =>
      let r := rstripSet p t
      if r.isEmpty && p c then [] else c :: r

/-- Characters kept verbatim by `sanitize_for_filesystem`:
`[a-zA-Z0-9._-]` (validators.py:394). -/
def isSanitizeAllowed (c : Char) : Bool :=
  c.isAlpha || c.isDigit || c = '.' || c = '_' || c = '-'

/-- Membership in Python's `strip(' .')` character set. -/
def isSpaceOrDot (c : Char) : Bool := c = ' ' || c = '.'

/-- Equality with `'.'`, for `lstrip('.')` / `rstrip('.')`. -/
def isDot (c : Char) : Bool := c = '.'

/-- `SecurityValidator.sanitize_for_filesystem` (validators.py:379-407):
strip spaces/dots at both ends, replace disallowed characters with `_`,
strip dots again at both ends, truncate to 255, default to "unnamed". -/
def sanitize_for_filesystem (name : List Char) : List Char :=
  let stripped := rstripSet isSpaceOrDot (lstripSet isSpaceOrDot name)
  let replaced := stripped.map (fun c => if isSanitizeAllowed c then c else '_')
  let dotless := rstripSet isDot (lstripSet isDot replaced)
  let truncated := if 255 < dotless.length then dotless.take 255 else dotless
  if truncated.isEmpty then "unnamed".toList else truncated

example : validate_path_traversal Char.isAlpha "models/test".toList = true := by decide
example : validate_path_traversal Char.isAlpha "../etc/passwd".toList = false := by decide
example : validate_path_traversal Char.isAlpha "C:x".toList = false := by decide
example : validate_path_traversal Char.isAlpha "a/..".toList = true := by decide
example : validate_model_id "meta-llama/Llama-2-7b".toList "huggingface".toList = (true, []) := by decide
example : (validate_model_id "a/..".toList "huggingface".toList).1 = false := by decide
example : sanitize_for_filesystem "  .hidden.file  ".toList = "hidden.file".toList := by decide
example : sanitize_for_filesystem "../../etc/passwd".toList = "_.._etc_passwd".toList := by decide
example : sanitize_for_filesystem [] = "unnamed".toList := by decide

/-- `CacheEntry` (cache_manager.py:18-28); floats modelled as `ℚ`. -/
structure CacheEntry where
  model_id : String
  provider : String
  size_gb : ℚ
  last_accessed : ℚ
  access_count : ℕ
  load_time_ms : ℚ
  path : String
  metadata : List (String × String)
deriving Repr, DecidableEq

/-- `UsagePattern` (cache_manager.py:31-40). -/
structure UsagePattern where
  model_id : String
  hour_histogram : List ℕ
  day_histogram : List ℕ
  total_requests : ℕ
  avg_daily_requests : ℚ
  peak_hour : ℕ
  peak_day : ℕ
deriving Repr, DecidableEq

/-- Constructor parameters of `ModelCacheManager` (cache_manager.py:46-60). -/
structure CacheConfig where
  nvme_path : String
  max_cache_size_gb : ℚ
  target_free_space_percent : ℚ
deriving Repr, DecidableEq

/-- In-memory state of `ModelCacheManager`: the `OrderedDict` LRU index
and the usage-pattern dict, both as association lists in insertion
order. -/
structure MgrState where
  cache : List (String × CacheEntry)
  patterns : List (String × UsagePattern)
deriving Repr, DecidableEq

/-- Fresh manager state: no persisted metadata on disk. -/
def initState : MgrState := { cache := [], patterns := [] }

/-- First binding for a key in an association list, the model of
Python dict lookup/membership. -/
def lookupKey (k : String) : List (String × α) → Option α
  | [] => none
  | (k2, v) :: t => if k2 = k then some v else lookupKey k t

/-- Remove the first binding of a key, the model of `dict.pop`. -/
def removeFirstKey (k : String) : List (String × α) → List (String × α)
  | [] => []
  | (k2, v) :: t => if k2 = k then t else (k2, v) :: removeFirstKey k t

/-- Replace the value of the first binding of a key, the model of
in-place mutation of `dict[k]`. -/
def replaceFirstKey (k : String) (v : α) : List (String × α) → List (String × α)
  | [] => []
  | (k2, w) :: t => if k2 = k then (k2, v) :: t else (k2, w) :: replaceFirstKey k v t

/-- Model of Python `max(list)` for a list of counters (counters are
nonnegative, so the 0 seed is neutral). -/
def listMax (l : List ℕ) : ℕ := l.foldr Nat.max 0

/-- Model of `list.index(x)`: index of the first occurrence. -/
def firstIdxOf (x : ℕ) : List ℕ → ℕ
  | [] => 0
  | a :: t => if a = x then 0 else firstIdxOf x t + 1

/-- The source's `hist.index(max(hist))` peak computation
(cache_manager.py:296-297). -/
def firstArgmax (l : List ℕ) : ℕ := firstIdxOf (listMax l) l

/-- A brand-new `UsagePattern` (cache_manager.py:280-288). -/
def freshPattern (mid : String) (hour : Fin 24) (day : Fin 7) : UsagePattern :=
  { model_id := mid
    hour_histogram := List.replicate 24 0
    day_histogram := List.replicate 7 0
    total_requests := 0
    avg_daily_requests := 0
    peak_hour := hour
    peak_day := day }

/-- The in-place mutation step of `_update_usage_pattern`
(cache_manager.py:290-302): bump the two histogram buckets and
`total_requests`, recompute peaks and the rolling average. -/
def bumpPattern (hour : Fin 24) (day : Fin 7) (p : UsagePattern) : UsagePattern :=
  let hh := p.hour_histogram.set hour (p.hour_histogram.getD hour 0 + 1)
  let dh := p.day_histogram.set day (p.day_histogram.getD day 0 + 1)
  let tot := p.total_requests + 1
  let daysActive := Nat.max 1 (dh.filter (fun d => 0 < d)).length
  { p with
    hour_histogram := hh
    day_histogram := dh
    total_requests := tot
    peak_hour := firstArgmax hh
    peak_day := firstArgmax dh
    avg_daily_requests := (tot : ℚ) / (daysActive : ℚ) }

/-- `ModelCacheManager._update_usage_pattern` (cache_manager.py:274-302)
acting on the pattern table; `hour`/`day` are `datetime.now().hour` and
`.weekday()`. -/
def update_usage_pattern (mid : String) (hour : Fin 24) (day : Fin 7)
    (patterns : List (String × UsagePattern)) : List (String × UsagePattern) :=
  match lookupKey mid patterns with
  | none => patterns ++ [(mid, bumpPattern hour day (freshPattern mid hour day))]
  | some p => replaceFirstKey mid (bumpPattern hour day p) patterns

/-- One call to `record_access`: its arguments plus the ambient clock
readings the source takes (`time.time()`, current hour, weekday). -/
structure AccessEvent where
  model_id : String
  provider : String
  size_gb : ℚ
  load_time_ms : ℚ
  path : Option String
  now : ℚ
  hour : Fin 24
  day : Fin 7

/-- `str(self.nvme_path / "models" / model_id)`. -/
def defaultModelPath (cfg : CacheConfig) (mid : String) : String :=
  cfg.nvme_path ++ "/models/" ++ mid

/-- `ModelCacheManager.record_access` (cache_manager.py:234-272):
existing entries are popped, touched (timestamp, count) and re-appended
at the MRU end; otherwise a new entry is appended.  `path or default`
falls back on both `None` and the empty string. -/
def record_access (cfg : CacheConfig) (st : MgrState) (ev : AccessEvent) :
    MgrState × CacheEntry :=
  match lookupKey ev.model_id st.cache with
  | some e =>
      let e2 := { e with last_accessed := ev.now, access_count := e.access_count + 1 }
      ({ cache := removeFirstKey ev.model_id st.cache ++ [(ev.model_id, e2)]
         patterns := update_usage_pattern ev.model_id ev.hour ev.day st.patterns }, e2)
  | none =>
      let pathVal :=
        match ev.path with
        | some s => if s = "" then defaultModelPath cfg ev.model_id else s
        | none => defaultModelPath cfg ev.model_id
      let e2 : CacheEntry :=
        { model_id := ev.model_id
          provider := ev.provider
          size_gb := ev.size_gb
          last_accessed := ev.now
          access_count := 1
          load_time_ms := ev.load_time_ms
          path := pathVal
          metadata := [] }
      ({ cache := st.cache ++ [(ev.model_id, e2)]
         patterns := update_usage_pattern ev.model_id ev.hour ev.day st.patterns }, e2)

/-- Run a sequence of `record_access` calls from a state. -/
def runAccesses (cfg : CacheConfig) (st : MgrState) : List AccessEvent → MgrState
  | [] => st
  | ev :: evs => runAccesses cfg (record_access cfg st ev).1 evs

/-- Total resident size, `sum(entry.size_gb for entry in cache.values())`. -/
def sumSizes (cache : List (String × CacheEntry)) : ℚ :=
  (cache.map (fun p => p.2.size_gb)).sum

/-- The accumulation loop of `_can_evict_for_space`
(cache_manager.py:387-397): walk entries in index order, add up sizes of
entries idle for more than 3600 s, return true as soon as the running
total reaches `required`. -/
def canEvictAux (now required : ℚ) : List (String × CacheEntry) → ℚ → Bool
  | [], _ => false
  | (_, e) :: t, evictable =>
      if 3600 < now - e.last_accessed then
        if required ≤ evictable + e.size_gb then true
        else canEvictAux now required t (evictable + e.size_gb)
      else canEvictAux now required t evictable

/-- `ModelCacheManager._can_evict_for_space` (cache_manager.py:377-397). -/
def can_evict_for_space (now required : ℚ) (cache : List (String × CacheEntry)) : Bool :=
  canEvictAux now required cache 0

/-- `ModelCacheManager.should_cache` (cache_manager.py:357-375): if the
new total would exceed the effective cap the answer is delegated to
`_can_evict_for_space` with the FULL requested size. -/
def should_cache (cfg : CacheConfig) (now : ℚ) (cache : List (String × CacheEntry))
    (size_gb : ℚ) : Bool :=
  let current := sumSizes cache
  if cfg.max_cache_size_gb * (1 - cfg.target_free_space_percent) < current + size_gb then
    can_evict_for_space now size_gb cache
  else true

/-- Total size of eviction-eligible entries (idle strictly longer than
the 3600 s grace window). -/
def eligibleSum (now : ℚ) (cache : List (String × CacheEntry)) : ℚ :=
  ((cache.filter (fun p => 3600 < now - p.2.last_accessed)).map (fun p => p.2.size_gb)).sum

/-- Claim C6's wording of `should_cache` (the spec sentence): admit when
the new total fits under the cap, otherwise exactly when eligible
entries can free the SHORTFALL `current + size_gb - cap`.  Defined for
comparison against `should_cache`, which is translated from the source. -/
def shouldCacheClaimed (cfg : CacheConfig) (now : ℚ) (cache : List (String × CacheEntry))
    (size_gb : ℚ) : Bool :=
  let current := sumSizes cache
  let cap := cfg.max_cache_size_gb * (1 - cfg.target_free_space_percent)
  if current + size_gb ≤ cap then true
  else decide (current + size_gb - cap ≤ eligibleSum now cache)

/-- Stable insertion step for sorting by `last_accessed` ascending. -/
def insertByLA (x : String × CacheEntry) : List (String × CacheEntry) → List (String × CacheEntry)
  | [] => [x]
  | y :: t => if x.2.last_accessed ≤ y.2.last_accessed then x :: y :: t else y :: insertByLA x t

/-- Model of `sorted(cache.items(), key=lambda x: x[1].last_accessed)`
(cache_manager.py:155-156): a stable sort, ascending by timestamp. -/
def sortByLA (l : List (String × CacheEntry)) : List (String × CacheEntry) :=
  l.foldr insertByLA []

/-- The eviction selection loop of `_check_and_evict`
(cache_manager.py:161-174): walk LRU order, stop once the remaining size
is at/under target, skip entries accessed within the last hour, collect
the rest. -/
def selectEvict (now total target : ℚ) : List (String × CacheEntry) → ℚ → List String
  | [], _ => []
  | (mid, e) :: t, evicted =>
      if total - evicted ≤ target then []
      else if now - e.last_accessed < 3600 then selectEvict now total target t evicted
      else mid :: selectEvict now total target t (evicted + e.size_gb)

/-- `ModelCacheManager._check_and_evict` (cache_manager.py:143-181),
returning the cache index after one pass (the deletion-marker side
effect is external reclamation and carries no state modelled here). -/
def check_and_evict (cfg : CacheConfig) (now : ℚ)
    (cache : List (String × CacheEntry)) : List (String × CacheEntry) :=
  let total := sumSizes cache
  let target := cfg.max_cache_size_gb * (1 - cfg.target_free_space_percent)
  if target < total then
    let evicted := selectEvict now total target (sortByLA cache) 0
    cache.filter (fun p => !(evicted.contains p.1))
  else cache

/-- The tiered parameter-count default of `get_model_load_time_estimate`
(cache_manager.py:419-429). -/
def tieredDefault (mid : String) : ℚ :=
  let l := toLowerL mid.toList
  if containsSub "70b".toList l then 30000
  else if containsSub "13b".toList l || containsSub "15b".toList l then 15000
  else if containsSub "7b".toList l || containsSub "8b".toList l then 8000
  else if containsSub "3b".toList l then 4000
  else 10000

/-- `ModelCacheManager.get_model_load_time_estimate`
(cache_manager.py:399-429), translated branch for branch: the history
branch re-reads `self._cache.get(model_id)` even though the first branch
already established the id is not resident. -/
def get_model_load_time_estimate (st : MgrState) (mid : String) : ℚ :=
  match lookupKey mid st.cache with
  | some _ => 100
  | none =>
      let viaHistory : Option ℚ :=
        if (lookupKey mid st.patterns).isSome then
          match lookupKey mid st.cache with
          | some e => if 0 < e.load_time_ms then some e.load_time_ms else none
          | none => none
        else none
      match viaHistory with
      | some v => v
      | none => tieredDefault mid

/-- Filesystem footprint of one `HuggingFaceHandler.download` run: does
the final model directory exist, does the staging (temp) directory
exist, does a `.backup.<pid>` copy exist. -/
structure DLState where
  targetExists : Bool
  tempExists : Bool
  backupExists : Bool
deriving Repr, DecidableEq

/-- `HuggingFaceHandler.download` (models/huggingface.py:90-197) as a
state transformer.  The oracles fix the outcomes of the external calls:
`validationOk` (both validators accept the id), `cliFound`
(`shutil.which` succeeds), `fetchOk` (the `huggingface-cli` subprocess
exits 0), `moveOk` (the final `shutil.move`/info write do not raise —
on such a raise the generic handler returns False without cleanup).
Returns the boolean result and the filesystem state. -/
def hfDownload (validationOk cliFound fetchOk moveOk : Bool) (s : DLState) :
    Bool × DLState :=
  if !validationOk then (false, s)
  else if !cliFound then (false, s)
  else
    let s1 : DLState := { s with tempExists := true }
    if !fetchOk then (false, { s1 with tempExists := false })
    else
      let s2 : DLState :=
        if s1.targetExists then { s1 with targetExists := false, backupExists := true }
        else s1
      if !moveOk then (false, s2)
      else (true, { s2 with targetExists := true, tempExists := false })

/-- Modelled from the spec: the placement lock.  The code implementing
`NVMeStorageManager._acquire_lock` / `_release_lock` and
`download_atomic`'s lock discipline is not present in the provided
sources (`storage.py` lacks it; only `tests/test_storage.py` exercises
it), so the advisory-lock state machine is taken from the spec's words:
a single system-wide exclusive lock, acquired non-blockingly
(`LOCK_EX | LOCK_NB`), with contention reported immediately. -/
structure LockState where
  holder : Option ℕ
deriving Repr, DecidableEq

/-- Modelled from the spec: outcome of a non-blocking lock acquisition. -/
inductive AcquireOutcome
  | acquired
  | lockContention
deriving Repr, DecidableEq

/-- Modelled from the spec: non-blocking acquisition — fails fast with
`lockContention` when the lock is held, never waits or queues. -/
def acquirePlacementLock (caller : ℕ) (st : LockState) : AcquireOutcome × LockState :=
  match st.holder with
  | some _ => (AcquireOutcome.lockContention, st)
  | none => (AcquireOutcome.acquired, { holder := some caller })

/-- Modelled from the spec: unconditional release (`LOCK_UN` + close). -/
def releasePlacementLock (_st : LockState) : LockState := { holder := none }

/-- A placement operation is in flight exactly while its caller holds
the advisory lock. -/
def placementInFlight (st : LockState) (caller : ℕ) : Prop := st.holder = some caller

/-- Shorthand for a cache entry in concrete scenarios. -/
def mkEntry (mid : String) (size last : ℚ) : CacheEntry :=
  { model_id := mid
    provider := "huggingface"
    size_gb := size
    last_accessed := last
    access_count := 1
    load_time_ms := 0
    path := ""
    metadata := [] }

example :
    check_and_evict ⟨"/mnt/nvme", 10, 1/5⟩ 7300
      [("old-model", mkEntry "old-model" 3 0),
       ("mid-model", mkEntry "mid-model" 3 7000),
       ("new-model", mkEntry "new-model" 3 7200)]
    = [("mid-model", mkEntry "mid-model" 3 7000),
       ("new-model", mkEntry "new-model" 3 7200)] := by
  norm_num [check_and_evict, sumSizes, sortByLA, insertByLA, selectEvict, mkEntry]
  exact ⟨by decide, by decide⟩

example :
    should_cache ⟨"/mnt/nvme", 10, 1/5⟩ 7300
      [("big-model", mkEntry "big-model" 5 7000),
       ("idle-model", mkEntry "idle-model" (3/2) 0)] 2 = false := by
  norm_num [should_cache, sumSizes, can_evict_for_space, canEvictAux, mkEntry]

example :
    shouldCacheClaimed ⟨"/mnt/nvme", 10, 1/5⟩ 7300
      [("big-model", mkEntry "big-model" 5 7000),
       ("idle-model", mkEntry "idle-model" (3/2) 0)] 2 = true := by
  norm_num [shouldCacheClaimed, sumSizes, eligibleSum, mkEntry]

example : tieredDefault "org/model-7b" = 8000 := by decide

example :
    get_model_load_time_estimate
      { cache := [], patterns := [("org/model-7b", freshPattern "org/model-7b" 0 0)] }
      "org/model-7b" = 8000 := by decide

/-- Maximum size 10 GB with target free fraction 0.2 — the configuration
of the spec's eviction and admission scenarios (effective cap 8 GB). -/
def std10cfg : CacheConfig := ⟨"/mnt/nvme", 10, 1/5⟩

/-- Three resident 3 GB entries; only the oldest one is outside the
one-hour grace window at time 7300. -/
def evictScenario : List (String × CacheEntry) :=
  [("old-model", mkEntry "old-model" 3 0),
   ("mid-model", mkEntry "mid-model" 3 7000),
   ("new-model", mkEntry "new-model" 3 7200)]

/-- C1 counterexample: a run of `HuggingFaceHandler.download` whose
fetch subprocess fails while a previously placed artifact already sits
at the target path.  The staging directory is removed and the failure is
reported, but the target path still exists afterwards, refuting the
claim's "the target path does not exist afterward" for this run. -/
theorem C1_counterexample :
    (hfDownload true true false true ⟨true, false, false⟩).2.targetExists = true ∧
    (hfDownload true true false true ⟨true, false, false⟩).2.tempExists = false ∧
    (hfDownload true true false true ⟨true, false, false⟩).1 = false := by
  decide

/-- C1 (amended): for every run in which the provider fetcher fails
mid-fetch, `HuggingFaceHandler.download` reports failure, the staging
directory created for the download has been removed, and the target
path is exactly as it was before the run — in particular it does not
exist if it did not exist before. -/
theorem C1_theorem (s : DLState) (moveOk : Bool) :
    hfDownload true true false moveOk s = (false, { s with tempExists := false }) := by
  cases s
  cases moveOk <;> rfl

/-- C2 (spec-modelled): while a placement holds the advisory lock it is
the only one in flight; a second concurrent acquisition fails
immediately with `lockContention` and leaves the lock state untouched
(no waiting or queueing), and an acquisition attempted after the holder
releases succeeds. -/
theorem C2_theorem (st : LockState) (c d : ℕ) (h : placementInFlight st c) :
    (∀ e, placementInFlight st e → e = c) ∧
    acquirePlacementLock d st = (AcquireOutcome.lockContention, st) ∧
    (acquirePlacementLock d (releasePlacementLock st)).1 = AcquireOutcome.acquired := by
  obtain ⟨holder⟩ := st
  simp only [placementInFlight] at h
  subst h
  refine ⟨?_, rfl, rfl⟩
  intro e he
  simpa [placementInFlight] using he.symm

/-- C2 witness: caller 0 holds the lock; caller 1 contends and then
succeeds after release. -/
theorem C2_witness :
    (∀ e, placementInFlight ⟨some 0⟩ e → e = 0) ∧
    acquirePlacementLock 1 ⟨some 0⟩ = (AcquireOutcome.lockContention, ⟨some 0⟩) ∧
    (acquirePlacementLock 1 (releasePlacementLock ⟨some 0⟩)).1 = AcquireOutcome.acquired :=
  C2_theorem ⟨some 0⟩ 0 1 rfl

/-- C7 counterexample: in the spec's eviction scenario (max 10 GB, free
fraction 0.2, three 3 GB entries, only the oldest outside the grace
window) a single `_check_and_evict` pass leaves a resident size of 6 GB,
not the claimed 5 GB. -/
theorem C7_counterexample :
    sumSizes (check_and_evict std10cfg 7300 evictScenario) = 6 ∧ (6 : ℚ) ≠ 5 := by
  constructor
  · norm_num +decide [check_and_evict, sumSizes, sortByLA, insertByLA, selectEvict, mkEntry,
      evictScenario, std10cfg, List.filter]
  · norm_num

/-- C7 (amended): in that scenario the single eviction pass removes
exactly the oldest entry and brings the resident size to 6 GB. -/
theorem C7_theorem :
    check_and_evict std10cfg 7300 evictScenario
      = [("mid-model", mkEntry "mid-model" 3 7000),
         ("new-model", mkEntry "new-model" 3 7200)] ∧
    sumSizes (check_and_evict std10cfg 7300 evictScenario) = 6 := by
  constructor
  · norm_num +decide [check_and_evict, sumSizes, sortByLA, insertByLA, selectEvict, mkEntry,
      evictScenario, std10cfg, List.filter]
  · norm_num +decide [check_and_evict, sumSizes, sortByLA, insertByLA, selectEvict, mkEntry,
      evictScenario, std10cfg, List.filter]

/-- C8: the historical branch of `get_model_load_time_estimate` is dead
code — for any model id that is not resident in the cache index the
estimate is always the tiered parameter-count default, never the last
observed `load_time_ms`, because the branch re-reads the cache entry
that the non-residency test just ruled out. -/
theorem C8_theorem (st : MgrState) (mid : String)
    (h : lookupKey mid st.cache = none) :
    get_model_load_time_estimate st mid = tieredDefault mid := by
  simp [get_model_load_time_estimate, h]

/-- A state in which `org/model-7b` has usage history but is no longer
resident (its entry was evicted; the pattern survives eviction). -/
def c8state : MgrState :=
  { cache := [], patterns := [("org/model-7b", freshPattern "org/model-7b" 0 0)] }

/-- C8 witness: in `c8state` the id is not resident and the estimate is
the tiered default (8000 ms for a `7b` id), regardless of any previously
observed load time. -/
theorem C8_witness :
    get_model_load_time_estimate c8state "org/model-7b" = tieredDefault "org/model-7b" ∧
    tieredDefault "org/model-7b" = 8000 :=
  ⟨C8_theorem c8state "org/model-7b" rfl, by decide⟩

/-- Claim C3's first rejection class, in the claim's words: the text
contains a `..` path segment in either slash style, i.e. the substring
`../` or `..\`. -/
def hasDotDotSegment (p : List Char) : Bool :=
  containsSub ('.' :: '.' :: '/' :: []) p || containsSub ('.' :: '.' :: '\\' :: []) p

/-- The spec's drive-letter pattern `[A-Za-z]:` at the start of the
text, exactly as claim C3 words it.  Defined from the claim's words for
comparison with the source: the source's check is Unicode-aware (see
`validate_path_traversal`) and rejects strictly more strings. -/
def isDriveLetterPath (p : List Char) : Bool :=
  match p with
  | a :: b :: _ => a.isAlpha && b = ':'
  | _ => false

/-- The source's drive-letter test with its Unicode `isalpha` oracle:
second character `:`, first character alphabetic per the oracle. -/
def isDriveLetterPathPy (pyAlpha : Char → Bool) (p : List Char) : Bool :=
  match p with
  | a :: b :: _ => pyAlpha a && b = ':'
  | _ => false

/-- Claim C3's UNC prefix: the text starts with `\\`. -/
def isUNCPath (p : List Char) : Bool := startsWithL ['\\', '\\'] p

/-- The source's length/index drive-letter test coincides with the
pattern-matching formulation, for any `isalpha` oracle. -/
theorem driveCheck_eq (pyAlpha : Char → Bool) (p : List Char) :
    (decide (2 ≤ p.length) && decide (p.getD 1 ' ' = ':') && pyAlpha (p.getD 0 ' '))
      = isDriveLetterPathPy pyAlpha p := by
  rcases p with _ | ⟨a, _ | ⟨b, t⟩⟩ <;>
    simp [isDriveLetterPathPy, Bool.and_comm, Bool.and_assoc, Bool.and_left_comm]

/-- A concrete instance of Python's `isalpha` oracle, agreeing with the
Unicode database on every character of the strings it is applied to
below: ASCII behaves as `[A-Za-z]`, and `é` (U+00E9, Unicode category
Ll) is alphabetic, as Python's `str.isalpha` reports. -/
def pyAlphaEx : Char → Bool := fun c => c.isAlpha || c = 'é'

/-- C3 counterexample: under Python's actual `isalpha` answer for `é`,
the source rejects `é:x` (second character `:`, Unicode-alphabetic
first character), although the string contains no `../` or `..\`
segment, does not start with `/`, does not match the claim's ASCII
drive-letter pattern `[A-Za-z]:`, and carries no UNC prefix — so
"returns True for all other strings" is false of the program. -/
theorem C3_counterexample :
    pyAlphaEx 'é' = true ∧
    validate_path_traversal pyAlphaEx "é:x".toList = false ∧
    hasDotDotSegment "é:x".toList = false ∧
    startsWithL ['/'] "é:x".toList = false ∧
    isDriveLetterPath "é:x".toList = false ∧
    isUNCPath "é:x".toList = false := by
  decide

/-- C3 (amended): `validate_path_traversal` returns False exactly on
the strings that contain a `..` segment in either slash style (`../` or
`..\`), start with `/`, have `:` as second character with a first
character alphabetic per Python's Unicode-aware `isalpha` (a strict
superset of the spec's `[A-Za-z]`), or start with a UNC `\\` prefix —
and returns True on every other string; proved for every `isalpha`
oracle. -/
theorem C3_theorem (pyAlpha : Char → Bool) (p : List Char) :
    validate_path_traversal pyAlpha p = false ↔
      (hasDotDotSegment p = true ∨ startsWithL ['/'] p = true ∨
       isDriveLetterPathPy pyAlpha p = true ∨ isUNCPath p = true) := by
  rw [validate_path_traversal]
  rw [show (decide (2 ≤ p.length) && decide (p.getD 1 ' ' = ':') && pyAlpha (p.getD 0 ' '))
        = isDriveLetterPathPy pyAlpha p from driveCheck_eq pyAlpha p]
  split_ifs with h1 h2 h3 h4 <;>
    simp_all [hasDotDotSegment, isUNCPath]

/-- C3 witness: the characterization instantiated at the concrete
oracle — a traversal string is rejected, a benign relative path is
accepted, and the Unicode drive-letter string is rejected through the
oracle clause. -/
theorem C3_witness :
    validate_path_traversal pyAlphaEx "..\\win".toList = false ∧
    validate_path_traversal pyAlphaEx "models/llama".toList ≠ false ∧
    validate_path_traversal pyAlphaEx "é:x".toList = false := by
  have hbad := C3_theorem pyAlphaEx ("..\\win".toList)
  have hgood := C3_theorem pyAlphaEx ("models/llama".toList)
  have huni := C3_theorem pyAlphaEx ("é:x".toList)
  refine ⟨hbad.mpr (Or.inl (by decide)), fun hf => ?_,
    huni.mpr (Or.inr (Or.inr (Or.inl (by decide))))⟩
  rcases hgood.mp hf with h | h | h | h <;> revert h <;> decide

/-- Unfolding of `eligibleSum` over a cons cell. -/
theorem eligibleSum_cons (now : ℚ) (m : String) (e : CacheEntry)
    (t : List (String × CacheEntry)) :
    eligibleSum now ((m, e) :: t) =
      if 3600 < now - e.last_accessed then e.size_gb + eligibleSum now t
      else eligibleSum now t := by
  by_cases h : (3600 : ℚ) < now - e.last_accessed <;>
    simp [eligibleSum, List.filter_cons, h]

/-- With nonnegative sizes the eligible total is nonnegative. -/
theorem eligibleSum_nonneg (now : ℚ) (l : List (String × CacheEntry))
    (h : ∀ p ∈ l, 0 ≤ p.2.size_gb) : 0 ≤ eligibleSum now l := by
  induction l with
  | nil => simp [eligibleSum]
  | cons hd tl ih =>
      obtain ⟨m, e⟩ := hd
      rw [eligibleSum_cons]
      have he : 0 ≤ e.size_gb := h (m, e) (List.mem_cons_self _ _)
      have ht : 0 ≤ eligibleSum now tl := ih fun p hp => h p (List.mem_cons_of_mem _ hp)
      split_ifs <;> linarith

/-- The early-exit accumulation loop of `_can_evict_for_space` answers
the threshold question `required ≤ acc + eligible-total` whenever the
accumulator is still short of `required` and sizes are nonnegative. -/
theorem canEvictAux_iff (now required : ℚ) :
    ∀ (l : List (String × CacheEntry)) (acc : ℚ),
      (∀ p ∈ l, 0 ≤ p.2.size_gb) → acc < required →
      (canEvictAux now required l acc = true ↔ required ≤ acc + eligibleSum now l) := by
  intro l
  induction l with
  | nil =>
      intro acc _ hacc
      simp only [canEvictAux, eligibleSum, List.filter_nil, List.map_nil, List.sum_nil]
      constructor
      · intro hf
        exact absurd hf (by simp)
      · intro hle
        linarith
  | cons hd tl ih =>
      intro acc hnn hacc
      obtain ⟨m, e⟩ := hd
      have he : 0 ≤ e.size_gb := hnn (m, e) (List.mem_cons_self _ _)
      have htl : ∀ p ∈ tl, 0 ≤ p.2.size_gb := fun p hp => hnn p (List.mem_cons_of_mem _ hp)
      rw [eligibleSum_cons]
      by_cases helig : (3600 : ℚ) < now - e.last_accessed
      · by_cases hreach : required ≤ acc + e.size_gb
        · have hsum : 0 ≤ eligibleSum now tl := eligibleSum_nonneg now tl htl
          simp only [canEvictAux, if_pos helig, if_pos hreach]
          exact iff_of_true trivial (by linarith)
        · have hlt : acc + e.size_gb < required := lt_of_not_le hreach
          simp only [canEvictAux, if_pos helig, if_neg hreach]
          rw [ih (acc + e.size_gb) htl hlt]
          constructor <;> intro hle <;> linarith
      · simp only [canEvictAux, if_neg helig]
        exact ih acc htl hacc

/-- C6 counterexample state: a 5 GB entry accessed recently plus a
1.5 GB entry idle since time 0; total 6.5 GB, cap 8 GB. -/
def c6cache : List (String × CacheEntry) :=
  [("big-model", mkEntry "big-model" 5 7000),
   ("idle-model", mkEntry "idle-model" (3/2) 0)]

/-- C6 counterexample: admitting 2 GB at time 7300 overshoots the cap by
0.5 GB; the idle 1.5 GB entry covers that shortfall, so the claim's
shortfall-based rule answers True, but `should_cache` answers False
because `_can_evict_for_space` is asked for the full 2 GB. -/
theorem C6_counterexample :
    shouldCacheClaimed std10cfg 7300 c6cache 2 = true ∧
    should_cache std10cfg 7300 c6cache 2 = false := by
  constructor
  · norm_num [shouldCacheClaimed, sumSizes, eligibleSum, mkEntry, c6cache, std10cfg]
  · norm_num [should_cache, sumSizes, can_evict_for_space, canEvictAux, mkEntry, c6cache,
      std10cfg]

/-- C6 (amended): for a positive requested size and nonnegative resident
sizes, `should_cache` returns True exactly when the new total stays at
or under `max_size × (1 − target_free_fraction)` or the
eviction-eligible entries (idle beyond the one-hour window) total at
least the FULL requested `size_gb` — not merely the shortfall. -/
theorem C6_theorem (cfg : CacheConfig) (now : ℚ) (cache : List (String × CacheEntry))
    (size_gb : ℚ) (hpos : 0 < size_gb) (hnn : ∀ p ∈ cache, 0 ≤ p.2.size_gb) :
    (should_cache cfg now cache size_gb = true ↔
      (sumSizes cache + size_gb ≤ cfg.max_cache_size_gb * (1 - cfg.target_free_space_percent)
        ∨ size_gb ≤ eligibleSum now cache)) := by
  simp only [should_cache, can_evict_for_space]
  split_ifs with h
  · rw [canEvictAux_iff now size_gb cache 0 hnn (by linarith)]
    constructor
    · intro hle
      right
      linarith
    · rintro (hfit | helig)
      · exact absurd hfit (not_le.mpr h)
      · linarith
  · constructor
    · intro _
      exact Or.inl (le_of_not_lt h)
    · intro _
      rfl

/-- C6 witness: the amended characterization instantiated at the
concrete 6.5 GB state with a 2 GB request. -/
theorem C6_witness :
    should_cache std10cfg 7300 c6cache 2 = true ↔
      (sumSizes c6cache + 2
          ≤ std10cfg.max_cache_size_gb * (1 - std10cfg.target_free_space_percent)
        ∨ (2 : ℚ) ≤ eligibleSum 7300 c6cache) :=
  C6_theorem std10cfg 7300 c6cache 2 (by norm_num)
    (by
      intro p hp
      simp only [c6cache, mkEntry, List.mem_cons, List.mem_singleton] at hp
      rcases hp with rfl | rfl | h
      · norm_num
      · norm_num
      · cases h)

/-- A string matching the HuggingFace grammar starts with a character
of the organization class `[a-zA-Z0-9_-]`. -/
theorem matchHF_head_isOrgChar {c : Char} {t : List Char}
    (h : matchHF (c :: t) = true) : isOrgChar c = true := by
  by_cases hc : c = '/'
  · subst hc
    simp [matchHF, List.takeWhile_cons, List.dropWhile_cons] at h
  · simp only [matchHF, List.takeWhile_cons, List.dropWhile_cons, hc, decide_False,
      Bool.not_false, if_true] at h
    split at h
    · simp only [List.isEmpty_cons, Bool.not_false, List.all_cons, Bool.and_eq_true,
        Bool.true_and] at h
      exact h.1.1.1
    · exact absurd h (by simp)

/-- C4 counterexample: `a/..` matches the HuggingFace grammar
`^[A-Za-z0-9_-]+/[A-Za-z0-9._-]+$` and contains no injection character,
yet `validate_model_id` rejects it (the `..` path-traversal check fires
before the grammar check), so the result is not `(True, "")`. -/
theorem C4_counterexample :
    matchHF "a/..".toList = true ∧
    findDanger "a/..".toList = none ∧
    validate_model_id "a/..".toList "huggingface".toList ≠ (true, []) := by
  refine ⟨by decide, by decide, by decide⟩

/-- C4 (amended): every id that matches the HuggingFace grammar, is free
of injection characters, has length at most 256, and does not contain
`..` is accepted: `validate_model_id(id, "huggingface") = (True, "")`. -/
theorem C4_theorem (mid : List Char)
    (hfmt : matchHF mid = true)
    (hdanger : findDanger mid = none)
    (hlen : mid.length ≤ 256)
    (hdots : containsSub ('.' :: '.' :: []) mid = false) :
    validate_model_id mid "huggingface".toList = (true, []) := by
  obtain ⟨c, t, rfl⟩ : ∃ c t, mid = c :: t := by
    cases mid with
    | nil => exact absurd hfmt (by decide)
    | cons c t => exact ⟨c, t, rfl⟩
  have horg : isOrgChar c = true := matchHF_head_isOrgChar hfmt
  have hslash : ¬(c = '/') := fun hc => by
    subst hc
    exact absurd horg (by decide)
  have hbslash : ¬(c = '\\') := fun hc => by
    subst hc
    exact absurd horg (by decide)
  have hslash2 : ¬('/' = c) := fun h => hslash h.symm
  have hbslash2 : ¬('\\' = c) := fun h => hbslash h.symm
  have hsw1 : startsWithL ['/'] (c :: t) = false := by
    simp [startsWithL, isPrefixOfL, hslash2]
  have hsw2 : startsWithL ['\\'] (c :: t) = false := by
    simp [startsWithL, isPrefixOfL, hbslash2]
  rw [validate_model_id]
  rw [if_neg (by simp)]
  rw [if_neg (by omega)]
  rw [hdanger]
  rw [if_neg (by simp [hdots, hsw1, hsw2])]
  rw [if_pos (by decide)]
  rw [if_pos hfmt]

/-- C4 witness: `meta-llama/Llama-2-7b` satisfies all four hypotheses
and is accepted. -/
theorem C4_witness :
    validate_model_id "meta-llama/Llama-2-7b".toList "huggingface".toList = (true, []) :=
  C4_theorem "meta-llama/Llama-2-7b".toList (by decide) (by decide) (by decide) (by decide)

/-- Members of a right-stripped list are members of the list. -/
theorem mem_rstripSet {p : Char → Bool} {a : Char} :
    ∀ {l : List Char}, a ∈ rstripSet p l → a ∈ l := by
  intro l
  induction l with
  | nil => simp [rstripSet]
  | cons c t ih =>
      simp only [rstripSet]
      split_ifs with h
      · intro ha
        cases ha
      · intro ha
        rcases List.mem_cons.mp ha with rfl | ha
        · exact List.mem_cons_self _ _
        · exact List.mem_cons_of_mem _ (ih ha)

/-- Right-stripping preserves the head. -/
theorem rstripSet_head? {p : Char → Bool} {a : Char} :
    ∀ {l : List Char}, (rstripSet p l).head? = some a → l.head? = some a := by
  intro l
  cases l with
  | nil => simp [rstripSet]
  | cons c t =>
      simp only [rstripSet]
      split_ifs with h
      · intro ha
        cases ha
      · intro ha
        simpa using ha

/-- The last character surviving a right strip fails the strip
predicate. -/
theorem rstripSet_getLast_false {p : Char → Bool} :
    ∀ {l : List Char} {a : Char}, (rstripSet p l).getLast? = some a → p a = false := by
  intro l
  induction l with
  | nil => simp [rstripSet]
  | cons c t ih =>
      intro a
      simp only [rstripSet]
      split_ifs with h
      · intro ha
        cases ha
      · rcases hr : rstripSet p t with _ | ⟨d, r⟩
        · intro ha
          simp only [List.getLast?_singleton, Option.some_inj] at ha
          subst ha
          rw [hr] at h
          simpa using h
        · intro ha
          rw [List.getLast?_cons_cons] at ha
          exact ih (hr ▸ ha)

/-- A list whose last character fails the predicate is unchanged by the
right strip. -/
theorem rstripSet_eq_self {p : Char → Bool} :
    ∀ {l : List Char}, (∀ a, l.getLast? = some a → p a = false) → rstripSet p l = l := by
  intro l
  induction l with
  | nil => intro _; rfl
  | cons c t ih =>
      intro h
      cases t with
      | nil =>
          have hc : p c = false := h c rfl
          simp [rstripSet, hc]
      | cons d r =>
          have ht : rstripSet p (d :: r) = d :: r := by
            apply ih
            intro a ha
            exact h a (by rw [List.getLast?_cons_cons]; exact ha)
          show (if (rstripSet p (d :: r)).isEmpty && p c then []
                else c :: rstripSet p (d :: r)) = c :: d :: r
          rw [ht]
          simp

/-- The head surviving `dropWhile` fails the predicate. -/
theorem head?_dropWhile_false {p : Char → Bool} :
    ∀ {l : List Char} {a : Char}, (l.dropWhile p).head? = some a → p a = false := by
  intro l
  induction l with
  | nil => simp
  | cons c t ih =>
      intro a
      by_cases hp : p c
      · intro ha
        rw [List.dropWhile_cons, if_pos hp] at ha
        exact ih ha
      · simp only [List.dropWhile_cons, if_neg hp, List.head?_cons, Option.some_inj]
        intro ha
        subst ha
        exact Bool.eq_false_iff.mpr hp

/-- A list whose head fails the predicate is unchanged by `dropWhile`. -/
theorem dropWhile_eq_self_of_head {p : Char → Bool} :
    ∀ {l : List Char}, (∀ a, l.head? = some a → p a = false) → l.dropWhile p = l := by
  intro l
  cases l with
  | nil => intro _; rfl
  | cons c t =>
      intro h
      have hc : p c = false := h c rfl
      simp [List.dropWhile_cons, hc]

/-- Members of `dropWhile` are members of the list. -/
theorem mem_dropWhile {p : Char → Bool} {a : Char} :
    ∀ {l : List Char}, a ∈ l.dropWhile p → a ∈ l := by
  intro l
  induction l with
  | nil => simp
  | cons c t ih =>
      by_cases hp : p c
      · intro ha
        simp only [List.dropWhile_cons, if_pos hp] at ha
        exact List.mem_cons_of_mem _ (ih ha)
      · intro ha
        simpa only [List.dropWhile_cons, if_neg hp] using ha

/-- Taking a positive count preserves the head. -/
theorem head?_take_pos {a : Char} {n : ℕ} (hn : 0 < n) :
    ∀ {l : List Char}, (l.take n).head? = some a → l.head? = some a := by
  intro l
  cases l with
  | nil => simp
  | cons c t =>
      obtain ⟨m, rfl⟩ := Nat.exists_eq_succ_of_ne_zero (Nat.pos_iff_ne_zero.mp hn)
      simp [List.take_succ_cons]

/-- A name consisting only of allowed characters, with no leading and no
trailing dot and length within the filesystem limit, is a fixed point of
`sanitize_for_filesystem`. -/
theorem sanitize_fixed (y : List Char)
    (hne : y ≠ [])
    (hall : ∀ c ∈ y, isSanitizeAllowed c = true)
    (hhead : ∀ c, y.head? = some c → isDot c = false)
    (hlast : ∀ c, y.getLast? = some c → isDot c = false)
    (hlen : y.length ≤ 255) :
    sanitize_for_filesystem y = y := by
  have hheadSD : ∀ c, y.head? = some c → isSpaceOrDot c = false := by
    intro c hc
    have ha := hall c (List.mem_of_mem_head? hc)
    have hd := hhead c hc
    simp only [isSpaceOrDot]
    simp only [isDot, decide_eq_false_iff_not] at hd
    have hsp : ¬(c = ' ') := by
      intro h
      subst h
      exact absurd ha (by decide)
    simp [hsp, hd]
  have hlastSD : ∀ c, y.getLast? = some c → isSpaceOrDot c = false := by
    intro c hc
    have ha := hall c (List.mem_of_mem_getLast? hc)
    have hd := hlast c hc
    simp only [isDot, decide_eq_false_iff_not] at hd
    have hsp : ¬(c = ' ') := by
      intro h
      subst h
      exact absurd ha (by decide)
    simp [isSpaceOrDot, hsp, hd]
  have s1 : lstripSet isSpaceOrDot y = y := dropWhile_eq_self_of_head hheadSD
  have s2 : rstripSet isSpaceOrDot y = y := rstripSet_eq_self hlastSD
  have s3 : y.map (fun c => if isSanitizeAllowed c then c else '_') = y := by
    have h : ∀ a ∈ y, (fun c => if isSanitizeAllowed c then c else '_') a = id a := by
      intro a ha
      simp [hall a ha]
    rw [List.map_congr_left h, List.map_id]
  have s4 : lstripSet isDot y = y := dropWhile_eq_self_of_head hhead
  have s5 : rstripSet isDot y = y := rstripSet_eq_self hlast
  have s6 : y.isEmpty = false := by simpa [List.isEmpty_iff] using hne
  have htr : ¬(255 < y.length) := by omega
  simp only [sanitize_for_filesystem, lstripSet] at *
  rw [s1, s2, s3, s4, s5, if_neg htr, s6]
  simp

/-- Every character of the post-replacement pipeline stage is in the
allowed class, because the replacement maps everything else to `_`. -/
theorem sanitize_replaced_allowed (l : List Char) :
    ∀ c ∈ l.map (fun c => if isSanitizeAllowed c then c else '_'),
      isSanitizeAllowed c = true := by
  intro c hc
  rcases List.mem_map.mp hc with ⟨a, _, rfl⟩
  by_cases ha : isSanitizeAllowed a = true
  · rw [if_pos ha]
    exact ha
  · simp only [Bool.not_eq_true] at ha
    simp only [ha, Bool.false_eq_true, if_false]
    decide

/-- The result of `sanitize_for_filesystem` is either the literal
`"unnamed"` or a nonempty string of allowed characters with no leading
dot and length at most 255. -/
theorem sanitize_shape (x : List Char) :
    sanitize_for_filesystem x = "unnamed".toList ∨
    (sanitize_for_filesystem x ≠ [] ∧
     (∀ c ∈ sanitize_for_filesystem x, isSanitizeAllowed c = true) ∧
     (∀ c, (sanitize_for_filesystem x).head? = some c → isDot c = false) ∧
     (sanitize_for_filesystem x).length ≤ 255) := by
  simp only [sanitize_for_filesystem]
  set replaced :=
    (rstripSet isSpaceOrDot (lstripSet isSpaceOrDot x)).map
      (fun c => if isSanitizeAllowed c then c else '_') with hrep
  set d := rstripSet isDot (lstripSet isDot replaced) with hd
  have hall_d : ∀ c ∈ d, isSanitizeAllowed c = true := by
    intro c hc
    exact sanitize_replaced_allowed _ c (mem_dropWhile (mem_rstripSet hc))
  have hhead_d : ∀ c, d.head? = some c → isDot c = false := by
    intro c hc
    exact head?_dropWhile_false (rstripSet_head? hc)
  set truncated := if 255 < d.length then d.take 255 else d with ht
  by_cases hemp : truncated.isEmpty
  · left
    rw [if_pos hemp]
  · right
    rw [if_neg hemp]
    have hne : truncated ≠ [] := by
      intro h
      rw [h] at hemp
      exact hemp rfl
    refine ⟨hne, ?_, ?_, ?_⟩
    · intro c hc
      rw [ht] at hc
      split_ifs at hc with hl
      · exact hall_d c (List.take_subset 255 d hc)
      · exact hall_d c hc
    · intro c hc
      rw [ht] at hc
      split_ifs at hc with hl
      · exact hhead_d c (head?_take_pos (by omega) hc)
      · exact hhead_d c hc
    · rw [ht]
      split_ifs with hl
      · simp [List.length_take]
      · omega

/-- C5 counterexample input: 254 `a`s, a dot, one more `a` — 256
characters, sanitized untouched down to the truncation step, which cuts
exactly after the dot. -/
def c5bad : List Char := List.replicate 254 'a' ++ ['.', 'a']

set_option maxRecDepth 100000 in
/-- C5 counterexample: `sanitize_for_filesystem` is not idempotent —
truncation to 255 characters can expose a trailing dot, which the next
application strips. -/
theorem C5_counterexample :
    sanitize_for_filesystem (sanitize_for_filesystem c5bad)
      ≠ sanitize_for_filesystem c5bad := by
  decide

/-- C5 (amended): `sanitize_for_filesystem("")` is the literal
`"unnamed"`, and `sanitize(sanitize(x)) = sanitize(x)` for every input
whose sanitized form does not end in a dot — the trailing dot that
truncation at 255 characters can expose is the only source of
non-idempotence. -/
theorem C5_theorem :
    sanitize_for_filesystem [] = "unnamed".toList ∧
    ∀ x : List Char, (sanitize_for_filesystem x).getLast? ≠ some '.' →
      sanitize_for_filesystem (sanitize_for_filesystem x) = sanitize_for_filesystem x := by
  constructor
  · decide
  · intro x hx
    have hlast : ∀ c, (sanitize_for_filesystem x).getLast? = some c → isDot c = false := by
      intro c hc
      by_cases hcd : c = '.'
      · subst hcd
        exact absurd hc hx
      · simp [isDot, hcd]
    rcases sanitize_shape x with h | ⟨hne, hall, hhead, hlen⟩
    · rw [h]
      decide
    · exact sanitize_fixed _ hne hall hhead hlast hlen

/-- C5 witness: a concrete input with disallowed characters whose
sanitized form `hello_world` ends in a letter; a second sanitization
leaves it unchanged. -/
theorem C5_witness :
    sanitize_for_filesystem (sanitize_for_filesystem "hello world!".toList)
      = sanitize_for_filesystem "hello world!".toList :=
  C5_theorem.2 "hello world!".toList (by decide)

/-- Incrementing one in-bounds counter raises the histogram sum by one. -/
theorem sum_set_add_one :
    ∀ (l : List ℕ) (i : ℕ), i < l.length →
      (l.set i (l.getD i 0 + 1)).sum = l.sum + 1 := by
  intro l
  induction l with
  | nil =>
      intro i hi
      cases hi
  | cons a t ih =>
      intro i hi
      cases i with
      | zero => simp [List.sum_cons, Nat.add_comm, Nat.add_assoc, Nat.add_left_comm]
      | succ j =>
          have hj : j < t.length := by simpa using hi
          simp only [List.set_cons_succ, List.getD_cons_succ, List.sum_cons, ih j hj]
          omega

/-- Every element is at most the fold-maximum. -/
theorem le_listMax : ∀ {l : List ℕ} {a : ℕ}, a ∈ l → a ≤ listMax l := by
  intro l
  induction l with
  | nil =>
      intro a ha
      cases ha
  | cons b t ih =>
      intro a ha
      rcases List.mem_cons.mp ha with rfl | ha
      · exact Nat.le_max_left _ _
      · exact Nat.le_trans (ih ha) (Nat.le_max_right _ _)

/-- The fold-maximum of a nonempty counter list is attained. -/
theorem listMax_mem : ∀ {l : List ℕ}, l ≠ [] → listMax l ∈ l := by
  intro l
  induction l with
  | nil =>
      intro h
      exact absurd rfl h
  | cons b t ih =>
      intro _
      cases t with
      | nil => simp [listMax]
      | cons c r =>
          rcases Nat.le_total (listMax (c :: r)) b with h | h
          · have : listMax (b :: c :: r) = b := by
              simp only [listMax, List.foldr_cons]
              exact Nat.max_eq_left h
            rw [this]
            exact List.mem_cons_self _ _
          · have : listMax (b :: c :: r) = listMax (c :: r) := by
              simp only [listMax, List.foldr_cons]
              exact Nat.max_eq_right h
            rw [this]
            exact List.mem_cons_of_mem _ (ih (by simp))

/-- `list.index(x)` finds the first occurrence: it is in bounds, holds
`x`, and every earlier position differs from `x`. -/
theorem firstIdxOf_spec :
    ∀ {l : List ℕ} {x : ℕ}, x ∈ l →
      firstIdxOf x l < l.length ∧ l.getD (firstIdxOf x l) 0 = x ∧
        ∀ j < firstIdxOf x l, l.getD j 0 ≠ x := by
  intro l
  induction l with
  | nil =>
      intro x hx
      cases hx
  | cons a t ih =>
      intro x hx
      by_cases ha : a = x
      · refine ⟨by simp [firstIdxOf, ha], by simp [firstIdxOf, ha], ?_⟩
        intro j hj
        simp [firstIdxOf, ha] at hj
      · have hxt : x ∈ t := by
          rcases List.mem_cons.mp hx with rfl | h
          · exact absurd rfl ha
          · exact h
        obtain ⟨hb, hg, hlt⟩ := ih hxt
        refine ⟨?_, ?_, ?_⟩
        · simp only [firstIdxOf, ha, if_false, List.length_cons]
          omega
        · simpa [firstIdxOf, ha] using hg
        · intro j hj
          simp only [firstIdxOf, ha, if_false] at hj
          cases j with
          | zero =>
              simp only [List.getD_cons_zero]
              exact ha
          | succ i =>
              have : i < firstIdxOf x t := by omega
              simpa using hlt i this

/-- The property claimed of `peak_hour`/`peak_day`: the lowest index
attaining the maximum value of the histogram. -/
def IsLowestArgmax (l : List ℕ) (i : ℕ) : Prop :=
  i < l.length ∧ (∀ j < l.length, l.getD j 0 ≤ l.getD i 0) ∧
    ∀ j < i, l.getD j 0 < l.getD i 0

instance (l : List ℕ) (i : ℕ) : Decidable (IsLowestArgmax l i) := by
  unfold IsLowestArgmax
  infer_instance

/-- The source's `hist.index(max(hist))` computes the lowest argmax of a
nonempty histogram. -/
theorem firstArgmax_isLowest {l : List ℕ} (h : l ≠ []) :
    IsLowestArgmax l (firstArgmax l) := by
  have hm : listMax l ∈ l := listMax_mem h
  obtain ⟨hb, hg, hlt⟩ := firstIdxOf_spec hm
  refine ⟨hb, ?_, ?_⟩
  · intro j hj
    rw [firstArgmax, hg]
    rw [List.getD_eq_getElem l 0 hj]
    exact le_listMax (List.getElem_mem hj)
  · intro j hj
    have hne := hlt j hj
    have hjb : j < l.length := Nat.lt_trans hj hb
    have hle : l.getD j 0 ≤ listMax l := by
      rw [List.getD_eq_getElem l 0 hjb]
      exact le_listMax (List.getElem_mem hjb)
    rw [firstArgmax, hg]
    exact Nat.lt_of_le_of_ne hle hne

/-- The invariant each pattern in the table maintains: correctly sized
histograms, request count equal to the hour-histogram sum, and both
peaks at the lowest argmax of their histogram. -/
def GoodPattern (p : UsagePattern) : Prop :=
  p.hour_histogram.length = 24 ∧ p.day_histogram.length = 7 ∧
  p.hour_histogram.sum = p.total_requests ∧
  IsLowestArgmax p.hour_histogram p.peak_hour ∧
  IsLowestArgmax p.day_histogram p.peak_day

/-- One `_update_usage_pattern` bump re-establishes the invariant. -/
theorem bumpPattern_good (hour : Fin 24) (day : Fin 7) (p : UsagePattern)
    (hl : p.hour_histogram.length = 24) (hd : p.day_histogram.length = 7)
    (hs : p.hour_histogram.sum = p.total_requests) :
    GoodPattern (bumpPattern hour day p) := by
  have hhl : (hour : ℕ) < p.hour_histogram.length := by
    rw [hl]
    exact hour.isLt
  have hdl : (day : ℕ) < p.day_histogram.length := by
    rw [hd]
    exact day.isLt
  have hlen1 : (p.hour_histogram.set hour (p.hour_histogram.getD hour 0 + 1)).length = 24 := by
    rw [List.length_set]
    exact hl
  have hlen2 : (p.day_histogram.set day (p.day_histogram.getD day 0 + 1)).length = 7 := by
    rw [List.length_set]
    exact hd
  refine ⟨hlen1, hlen2, ?_, ?_, ?_⟩
  · simp only [bumpPattern]
    rw [sum_set_add_one p.hour_histogram hour hhl, hs]
  · show IsLowestArgmax (p.hour_histogram.set hour (p.hour_histogram.getD hour 0 + 1))
      (firstArgmax (p.hour_histogram.set hour (p.hour_histogram.getD hour 0 + 1)))
    apply firstArgmax_isLowest
    intro hn
    rw [hn] at hlen1
    simp at hlen1
  · show IsLowestArgmax (p.day_histogram.set day (p.day_histogram.getD day 0 + 1))
      (firstArgmax (p.day_histogram.set day (p.day_histogram.getD day 0 + 1)))
    apply firstArgmax_isLowest
    intro hn
    rw [hn] at hlen2
    simp at hlen2

/-- Looking a key up lands on a pair of the list carrying that key. -/
theorem lookupKey_mem :
    ∀ {tbl : List (String × α)} {k : String} {v : α},
      lookupKey k tbl = some v → (k, v) ∈ tbl := by
  intro tbl
  induction tbl with
  | nil =>
      intro k v h
      cases h
  | cons hd t ih =>
      intro k v h
      obtain ⟨k2, w⟩ := hd
      by_cases hk : k2 = k
      · subst hk
        simp only [lookupKey, if_true] at h
        injection h with h
        subst h
        exact List.mem_cons_self _ _
      · simp only [lookupKey, if_neg hk] at h
        exact List.mem_cons_of_mem _ (ih h)

/-- Every table produced by `_update_usage_pattern` from a good table is
good. -/
theorem mem_replaceFirstKey :
    ∀ {tbl : List (String × α)} {k : String} {v : α} {pr : String × α},
      pr ∈ replaceFirstKey k v tbl → pr.2 = v ∨ pr ∈ tbl := by
  intro tbl
  induction tbl with
  | nil =>
      intro k v pr h
      cases h
  | cons hd t ih =>
      intro k v pr h
      obtain ⟨k2, w⟩ := hd
      by_cases hk : k2 = k
      · simp only [replaceFirstKey, if_pos hk] at h
        rcases List.mem_cons.mp h with rfl | h
        · exact Or.inl rfl
        · exact Or.inr (List.mem_cons_of_mem _ h)
      · simp only [replaceFirstKey, if_neg hk] at h
        rcases List.mem_cons.mp h with rfl | h
        · exact Or.inr (List.mem_cons_self _ _)
        · rcases ih h with hv | hm
          · exact Or.inl hv
          · exact Or.inr (List.mem_cons_of_mem _ hm)

/-- Tables in which every pattern satisfies the invariant. -/
def GoodTable (tbl : List (String × UsagePattern)) : Prop :=
  ∀ pr ∈ tbl, GoodPattern pr.2

/-- `_update_usage_pattern` preserves the table invariant. -/
theorem update_usage_pattern_good (mid : String) (hour : Fin 24) (day : Fin 7)
    (tbl : List (String × UsagePattern)) (h : GoodTable tbl) :
    GoodTable (update_usage_pattern mid hour day tbl) := by
  unfold update_usage_pattern
  rcases hl : lookupKey mid tbl with _ | p
  · intro pr hpr
    rcases List.mem_append.mp hpr with hm | hm
    · exact h pr hm
    · rcases List.mem_singleton.mp hm with rfl
      exact bumpPattern_good hour day _ (by simp [freshPattern]) (by simp [freshPattern])
        (by simp [freshPattern])
  · intro pr hpr
    rcases mem_replaceFirstKey hpr with hv | hm
    · have hp : GoodPattern p := h (mid, p) (lookupKey_mem hl)
      rw [hv]
      exact bumpPattern_good hour day p hp.1 hp.2.1 hp.2.2.1
    · exact h pr hm

/-- `record_access` rewrites the pattern table exactly through
`_update_usage_pattern`. -/
theorem record_access_patterns (cfg : CacheConfig) (st : MgrState) (ev : AccessEvent) :
    ((record_access cfg st ev).1).patterns
      = update_usage_pattern ev.model_id ev.hour ev.day st.patterns := by
  rcases h : lookupKey ev.model_id st.cache with _ | e <;>
    simp [record_access, h]

/-- Any sequence of `record_access` calls keeps the table good. -/
theorem runAccesses_good (cfg : CacheConfig) :
    ∀ (evs : List AccessEvent) (st : MgrState), GoodTable st.patterns →
      GoodTable ((runAccesses cfg st evs).patterns) := by
  intro evs
  induction evs with
  | nil =>
      intro st h
      exact h
  | cons ev rest ih =>
      intro st h
      have hstep : GoodTable (((record_access cfg st ev).1).patterns) := by
        rw [record_access_patterns]
        exact update_usage_pattern_good ev.model_id ev.hour ev.day st.patterns h
      exact ih _ hstep

/-- C9: after any sequence of `record_access` calls on a fresh manager,
every `UsagePattern` in the pattern table has `sum(hour_histogram) ==
total_requests`, and `peak_hour` (resp. `peak_day`) is the lowest index
attaining the maximum of `hour_histogram` (resp. `day_histogram`). -/
theorem C9_theorem (cfg : CacheConfig) (evs : List AccessEvent) (mid : String)
    (p : UsagePattern)
    (h : lookupKey mid ((runAccesses cfg initState evs).patterns) = some p) :
    p.hour_histogram.sum = p.total_requests ∧
    IsLowestArgmax p.hour_histogram p.peak_hour ∧
    IsLowestArgmax p.day_histogram p.peak_day := by
  have hg : GoodTable ((runAccesses cfg initState evs).patterns) := by
    apply runAccesses_good
    intro pr hpr
    cases hpr
  have hp : GoodPattern p := hg (mid, p) (lookupKey_mem h)
  exact ⟨hp.2.2.1, hp.2.2.2.1, hp.2.2.2.2⟩

/-- A single concrete access at hour 13, weekday 2. -/
def ev0 : AccessEvent :=
  { model_id := "m", provider := "huggingface", size_gb := 4, load_time_ms := 120,
    path := none, now := 1000, hour := 13, day := 2 }

/-- C9 witness: one access from the fresh state yields the pattern
`bumpPattern 13 2 (freshPattern "m" 13 2)`, and its histogram invariants
hold. -/
theorem C9_witness :
    (bumpPattern 13 2 (freshPattern "m" 13 2)).hour_histogram.sum
        = (bumpPattern 13 2 (freshPattern "m" 13 2)).total_requests ∧
    IsLowestArgmax (bumpPattern 13 2 (freshPattern "m" 13 2)).hour_histogram
      (bumpPattern 13 2 (freshPattern "m" 13 2)).peak_hour ∧
    IsLowestArgmax (bumpPattern 13 2 (freshPattern "m" 13 2)).day_histogram
      (bumpPattern 13 2 (freshPattern "m" 13 2)).peak_day :=
  C9_theorem std10cfg [ev0] "m" _ rfl

/-- Splitting a lookup over an append. -/
theorem lookupKey_append (k : String) :
    ∀ (l1 l2 : List (String × α)),
      lookupKey k (l1 ++ l2)
        = match lookupKey k l1 with
          | some v => some v
          | none => lookupKey k l2 := by
  intro l1 l2
  induction l1 with
  | nil => rfl
  | cons hd t ih =>
      obtain ⟨k2, w⟩ := hd
      by_cases hk : k2 = k
      · simp [lookupKey, hk]
      · simp only [List.cons_append, lookupKey, if_neg hk]
        exact ih

/-- A key absent from the key column looks up to `none`. -/
theorem lookupKey_eq_none_of_not_mem :
    ∀ {l : List (String × α)} {k : String}, k ∉ l.map Prod.fst →
      lookupKey k l = none := by
  intro l
  induction l with
  | nil =>
      intro k _
      rfl
  | cons hd t ih =>
      intro k hk
      obtain ⟨k2, w⟩ := hd
      simp only [List.map_cons, List.mem_cons] at hk
      push_neg at hk
      have hne : ¬(k2 = k) := fun hh => hk.1 hh.symm
      simp only [lookupKey, if_neg hne]
      exact ih hk.2

/-- With duplicate-free keys, popping a key removes its only binding. -/
theorem lookupKey_removeFirstKey_self :
    ∀ {l : List (String × α)} {k : String}, (l.map Prod.fst).Nodup →
      lookupKey k (removeFirstKey k l) = none := by
  intro l
  induction l with
  | nil =>
      intro k _
      rfl
  | cons hd t ih =>
      intro k hnd
      obtain ⟨k2, w⟩ := hd
      simp only [List.map_cons, List.nodup_cons] at hnd
      by_cases hk : k2 = k
      · subst hk
        simp only [removeFirstKey, if_pos rfl]
        exact lookupKey_eq_none_of_not_mem hnd.1
      · simp only [removeFirstKey, if_neg hk, lookupKey, if_neg hk]
        exact ih hnd.2

/-- Popping one key leaves lookups of every other key unchanged. -/
theorem lookupKey_removeFirstKey_other :
    ∀ {l : List (String × α)} {k mid : String}, k ≠ mid →
      lookupKey k (removeFirstKey mid l) = lookupKey k l := by
  intro l
  induction l with
  | nil =>
      intro k mid _
      rfl
  | cons hd t ih =>
      intro k mid hne
      obtain ⟨k2, w⟩ := hd
      by_cases hk : k2 = mid
      · subst hk
        have hne2 : ¬(k2 = k) := fun hh => hne hh.symm
        simp only [removeFirstKey, lookupKey, eq_self_iff_true, if_true, if_neg hne2]
      · simp only [removeFirstKey, if_neg hk, lookupKey]
        by_cases h2 : k2 = k
        · simp [h2]
        · simp only [if_neg h2]
          exact ih hne

/-- C10: calling `record_access` for an id already resident (with
duplicate-free index keys, as a Python dict guarantees) changes only the
entry's `last_accessed`, its `access_count`, and its position in the LRU
order (it moves to the MRU end); the stored `provider`, `size_gb`,
`load_time_ms`, `path` and `metadata` are untouched even when the call
passes different arguments, and every other entry's binding is
unchanged. -/
theorem C10_theorem (cfg : CacheConfig) (st : MgrState) (ev : AccessEvent)
    (e : CacheEntry)
    (hnd : (st.cache.map Prod.fst).Nodup)
    (h : lookupKey ev.model_id st.cache = some e) :
    lookupKey ev.model_id ((record_access cfg st ev).1).cache
      = some { e with last_accessed := ev.now, access_count := e.access_count + 1 } ∧
    (∀ k, k ≠ ev.model_id →
      lookupKey k ((record_access cfg st ev).1).cache = lookupKey k st.cache) ∧
    ((record_access cfg st ev).1).cache
      = removeFirstKey ev.model_id st.cache
          ++ [(ev.model_id,
               { e with last_accessed := ev.now, access_count := e.access_count + 1 })] := by
  have hcache : ((record_access cfg st ev).1).cache
      = removeFirstKey ev.model_id st.cache
          ++ [(ev.model_id,
               { e with last_accessed := ev.now, access_count := e.access_count + 1 })] := by
    simp [record_access, h]
  refine ⟨?_, ?_, hcache⟩
  · rw [hcache, lookupKey_append]
    rw [lookupKey_removeFirstKey_self hnd]
    simp [lookupKey]
  · intro k hk
    rw [hcache, lookupKey_append]
    have hne2 : ¬(ev.model_id = k) := fun hh => hk hh.symm
    have hsingle : lookupKey k
        [(ev.model_id,
          { e with last_accessed := ev.now, access_count := e.access_count + 1 })] = none := by
      simp [lookupKey, hne2]
    rw [lookupKey_removeFirstKey_other hk]
    rcases hv : lookupKey k st.cache with _ | v
    · simpa [hv] using hsingle
    · simp [hv]

/-- A one-entry index holding `m` at 4 GB, last touched at time 100. -/
def c10state : MgrState :=
  { cache := [("m", mkEntry "m" 4 100)], patterns := [] }

/-- A later access to `m` passing different size/load-time/path
arguments. -/
def ev1 : AccessEvent :=
  { model_id := "m", provider := "ollama", size_gb := 9, load_time_ms := 7,
    path := some "/elsewhere", now := 2000, hour := 5, day := 3 }

/-- C10 witness: re-accessing `m` with different arguments updates only
the timestamp, the count and the position; the stored fields survive. -/
theorem C10_witness :
    lookupKey "m" ((record_access std10cfg c10state ev1).1).cache
      = some
          { mkEntry "m" 4 100 with
            last_accessed := (2000 : ℚ),
            access_count := (mkEntry "m" 4 100).access_count + 1 } ∧
    (∀ k, k ≠ "m" →
      lookupKey k ((record_access std10cfg c10state ev1).1).cache
        = lookupKey k c10state.cache) ∧
    ((record_access std10cfg c10state ev1).1).cache
      = removeFirstKey "m" c10state.cache
          ++ [("m",
               { mkEntry "m" 4 100 with
                 last_accessed := (2000 : ℚ),
                 access_count := (mkEntry "m" 4 100).access_count + 1 })] :=
  C10_theorem std10cfg c10state ev1 (mkEntry "m" 4 100) (by simp [c10state]) rfl

end NvmeModels
